import Mathlib

/-!
Verification development for the ThinMCP gateway.

The definitions below are shallow embeddings of the TypeScript sources:
`src/catalog-store.ts`, `src/proxy.ts`, `src/schema-validator.ts`,
`src/upstream-manager.ts`, `src/sandbox.ts` and the execute-output
normalizer.  JS strings are modelled as Lean `String` (or `List Char`
where character-level reasoning is needed); JSON text columns are
modelled by the parsed JSON value itself, since `JSON.stringify` is
injective on JSON values and `JSON.parse` is its left inverse, so the
text layer is a bijection that the row-level logic never observes.
-/

namespace ThinMCP

/-- Minimal JSON value model: the values stored in the catalog's
serialized-JSON columns (`input_schema_json`, `output_schema_json`,
`annotations_json`). -/
inductive Json where
  | null
  | bool (b : Bool)
  | num (n : Int)
  | str (s : String)
  | arr (items : List Json)
  | obj (fields : List (String × Json))


/-- A JS `Record<string, unknown>` restricted to JSON values:
an ordered association list of fields. -/
abbrev JsonObj := List (String × Json)

/-- `parseJsonObject` from `catalog-store.ts`: JSON text parses back to a
value; the result is kept only when it is a non-null, non-array object,
otherwise the row-level fallback is `null`. -/
def parseJsonObject : Json → Option JsonObj
  | Json.obj fields => some fields
  | _ => none

/-- `NormalizedToolRecord` from `types.ts` (input of `replaceServerTools`). -/
structure NormalizedToolRecord where
  serverId : String
  serverName : String
  serverUrl : String
  toolName : String
  description : String
  inputSchema : JsonObj
  outputSchema : Option JsonObj
  annotations : Option JsonObj
  title : Option String
  searchableText : String
  snapshotHash : String


/-- One row of the `tools` table (`catalog-store.ts` schema).  The
`*_json` columns hold the parsed value of the stored JSON text. -/
structure ToolRow where
  server_id : String
  server_name : String
  server_url : String
  tool_name : String
  title : Option String
  description : String
  input_schema_json : Json
  output_schema_json : Option Json
  annotations_json : Option Json
  searchable_text : String
  snapshot_hash : String


/-- `ToolRecord` as returned by `CatalogStore` reads (`mapToolRecord`). -/
structure ToolRecord where
  serverId : String
  serverName : String
  serverUrl : String
  toolName : String
  title : Option String
  description : String
  inputSchema : JsonObj
  outputSchema : Option JsonObj
  annotations : Option JsonObj
  snapshotHash : String


/-- The catalog database state: the `tools` table as an ordered list of
rows (insertion order; the `UNIQUE(server_id, tool_name)` constraint is
enforced by `insertToolRow`). -/
structure CatalogDb where
  tools : List ToolRow


/-- `mapToolRecord` from `catalog-store.ts`.  Note the JS truthiness
test `row.title ? String(row.title) : null`: an empty-string title reads
back as `null`. -/
def mapToolRecord (row : ToolRow) : ToolRecord :=
  { serverId := row.server_id
    serverName := row.server_name
    serverUrl := row.server_url
    toolName := row.tool_name
    title := match row.title with
      | some t => if t = "" then none else some t
      | none => none
    description := row.description
    inputSchema := (parseJsonObject row.input_schema_json).getD []
    outputSchema := row.output_schema_json.bind parseJsonObject
    annotations := row.annotations_json.bind parseJsonObject
    snapshotHash := row.snapshot_hash }

/-- The row built by the insert statement of `replaceServerTools`.  The
bound `server_id` is `tool.serverId` (the field of the record), not the
`serverId` argument of `replaceServerTools`; only `snapshot_hash` comes
from the argument list.  `tool.outputSchema ? JSON.stringify(...) : null`
keeps `null` for absent schemas (objects are always truthy in JS). -/
def toolRowOf (snapshotHash : String) (tool : NormalizedToolRecord) : ToolRow :=
  { server_id := tool.serverId
    server_name := tool.serverName
    server_url := tool.serverUrl
    tool_name := tool.toolName
    title := tool.title
    description := tool.description
    input_schema_json := Json.obj tool.inputSchema
    output_schema_json := tool.outputSchema.map Json.obj
    annotations_json := tool.annotations.map Json.obj
    searchable_text := tool.searchableText
    snapshot_hash := snapshotHash }

/-- Insert one row into the `tools` table, failing (like SQLite) when the
`UNIQUE(server_id, tool_name)` constraint is violated. -/
def insertToolRow (rows : List ToolRow) (row : ToolRow) : Option (List ToolRow) :=
  if rows.any (fun r => r.server_id == row.server_id && r.tool_name == row.tool_name)
  then none
  else some (rows ++ [row])

/-- Insert a batch of rows in order; any constraint violation aborts the
whole batch (the SQLite transaction rolls back). -/
def insertToolRows (rows : List ToolRow) : List ToolRow → Option (List ToolRow)
  | [] => some rows
  | row :: rest =>
    match insertToolRow rows row with
    | none => none
    | some rows2 => insertToolRows rows2 rest

/-- `CatalogStore.replaceServerTools`: inside one transaction, delete all
rows with `server_id = serverId`, then insert the new set (each row bound
from the tool record itself, see `toolRowOf`).  `none` models the thrown
constraint-violation error, which rolls the transaction back.  Snapshot
registration and the `last_synced_at` stamp touch other tables and are
not part of the `tools`-table state. -/
def replaceServerTools (db : CatalogDb) (serverId snapshotHash snapshotPath : String)
    (tools : List NormalizedToolRecord) : Option CatalogDb :=
  let afterDelete := db.tools.filter (fun r => !(r.server_id == serverId))
  match insertToolRows afterDelete (tools.map (toolRowOf snapshotHash)) with
  | none => none
  | some rows => some { tools := rows }

/-- `CatalogStore.getTool`: single-row lookup on `(server_id, tool_name)`
(`LIMIT 1`; the unique constraint makes the row unique). -/
def getTool (db : CatalogDb) (serverId toolName : String) : Option ToolRecord :=
  (db.tools.find? (fun r => r.server_id == serverId && r.tool_name == toolName)).map
    mapToolRecord

/-- `SearchQuery` from `types.ts`.  The JS `limit` is a number or
`undefined`; fractional values are not produced by callers, so it is
modelled as an optional integer. -/
structure SearchQuery where
  query : Option String
  serverId : Option String
  limit : Option Int

/-- `clampLimit` from `catalog-store.ts`.  JS `!value` is true for
`undefined`, `0` and `NaN`, so a zero (or missing) limit falls back to
the default 30; any other value is clamped into `[1, 100]`. -/
def clampLimit (value : Option Int) : Int :=
  match value with
  | none => 30
  | some v => if v = 0 then 30 else max 1 (min 100 v)

/-- SQL `ORDER BY server_id ASC, tool_name ASC` as a Bool comparator. -/
def toolRowLe (a b : ToolRow) : Bool :=
  decide (a.server_id < b.server_id) ||
    (a.server_id == b.server_id && decide (a.tool_name ≤ b.tool_name))

/-- The `searchable_text LIKE '%q%'` filter: substring containment of the
lowercased query (the stored `searchable_text` is lowercase by
construction; SQLite LIKE is ASCII-case-insensitive, modelled by
lowercasing both sides). -/
def likeContains (haystack needle : String) : Bool :=
  decide (needle.toLower.data <:+: haystack.toLower.data)

/-- `CatalogStore.searchTools`: optional `server_id` filter, optional
substring filter when the query is non-empty after trimming, SQL
ordering, `LIMIT clampLimit(limit)`, rows mapped by `mapToolRecord`. -/
def searchTools (db : CatalogDb) (q : SearchQuery) : List ToolRecord :=
  let safeLimit := clampLimit q.limit
  let base := db.tools.filter (fun r =>
    match q.serverId with
    | none => true
    | some sid => r.server_id == sid)
  let filtered :=
    match q.query with
    | none => base
    | some s =>
      if s.trim.length = 0 then base
      else base.filter (fun r => likeContains r.searchable_text s)
  ((filtered.mergeSort toolRowLe).take safeLimit.toNat).map mapToolRecord

/-- `ServerRecord` from `catalog-store.ts` (as returned by `listServers`). -/
structure ServerRecord where
  id : String
  name : String
  url : String
  enabled : Bool
  allowTools : List String
  lastSyncedAt : Option String

/-- JS `String.prototype.endsWith`, over code-unit sequences. -/
def jsEndsWith (s suffixStr : String) : Bool :=
  decide (suffixStr.data <:+ s.data)

/-- JS `String.prototype.startsWith`, over code-unit sequences. -/
def jsStartsWith (s pre : String) : Bool :=
  decide (pre.data <+: s.data)

/-- JS `s.slice(0, -1)`: the string without its final code unit. -/
def jsDropLast (s : String) : String :=
  String.mk s.data.dropLast

/-- `isToolAllowed` from `proxy.ts`: the wildcard pattern passes every
name; otherwise a pattern passes by exact equality or, when it ends in
`*`, by prefix match against the pattern with the trailing `*` stripped
(`item.slice(0, -1)`). -/
def isToolAllowed (name : String) (allowList : List String) : Bool :=
  if allowList.contains ("*") then true
  else allowList.any (fun item =>
    item == name || (jsEndsWith item ("*") && jsStartsWith name (jsDropLast item)))

/-- `ExecuteToolInput` from `types.ts`.  The `arguments` payload is not
inspected by the proxy itself (it is passed to the validator and to the
upstream verbatim), so it is folded into `ProxyEnv.validate` and into
the upstream result. -/
structure ExecuteToolInput where
  serverId : String
  name : String

/-- Observable side effects of one `ToolProxy.call`, in order. -/
inductive ProxyEvent where
  | refresh (serverId : String)
  | toolLookup (serverId name : String)
  | upstreamCall (serverId name : String)
deriving DecidableEq

/-- The environment one `ToolProxy.call` runs against.

`catalog n` is what `store.getTool(input.serverId, input.name)` returns
after `n` completed `refreshServer` invocations during this call (the
catalog may change only when a refresh runs).  `validate tool` is the
outcome of `ToolInputValidator.validate(tool, input.arguments)` for this
call's fixed arguments: `none` when validation passes, `some message`
for the thrown error (the ajv validator is an external library; only its
outcome matters to the proxy's control flow).  `hasRefresh` says whether
`options.refreshServer` was injected, and `upstreamResult` is what
`upstream.callTool` returns. -/
structure ProxyEnv where
  servers : List ServerRecord
  catalog : Nat → Option ToolRecord
  validate : ToolRecord → Option String
  hasRefresh : Bool
  upstreamResult : Json

/-- `ToolProxy.validateInputWithRefresh` from `proxy.ts`: validate the
known tool; on failure, if a refresh hook exists, refresh, re-look-up,
and validate the refreshed record.  The original error is re-thrown only
when there is no hook or the re-lookup finds nothing; a failure of the
second validation throws the second error. -/
def validateInputWithRefresh (env : ProxyEnv) (refreshesSoFar : Nat)
    (knownTool : ToolRecord) : Except String Unit × List ProxyEvent :=
  match env.validate knownTool with
  | none => (Except.ok (), [])
  | some firstError =>
    if !env.hasRefresh then (Except.error firstError, [])
    else
      let events := [ProxyEvent.refresh knownTool.serverId,
                     ProxyEvent.toolLookup knownTool.serverId knownTool.toolName]
      match env.catalog (refreshesSoFar + 1) with
      | none => (Except.error firstError, events)
      | some refreshedTool =>
        match env.validate refreshedTool with
        | none => (Except.ok (), events)
        | some secondError => (Except.error secondError, events)

/-- Tail of `ToolProxy.call` once a known tool has been resolved:
validation (with refresh-on-failure) and the upstream dispatch.  Source
string quotes around interpolated values are omitted from the modelled
messages. -/
def ToolProxy.finish (env : ProxyEnv) (refreshesSoFar : Nat) (knownTool : ToolRecord)
    (input : ExecuteToolInput) (events : List ProxyEvent) :
    Except String Json × List ProxyEvent :=
  match validateInputWithRefresh env refreshesSoFar knownTool with
  | (Except.error e, more) => (Except.error e, events ++ more)
  | (Except.ok _, more) =>
    (Except.ok env.upstreamResult,
      events ++ more ++ [ProxyEvent.upstreamCall input.serverId input.name])

/-- `ToolProxy.call` from `proxy.ts`: server lookup, enabled check,
allow-list check, catalog lookup (with refresh-on-miss), validation
(with refresh-on-validation-failure), upstream dispatch.  The second
component records the catalog lookups, refreshes, and upstream calls
performed, in order. -/
def ToolProxy.call (env : ProxyEnv) (input : ExecuteToolInput) :
    Except String Json × List ProxyEvent :=
  match env.servers.find? (fun row => row.id == input.serverId) with
  | none => (Except.error ("Unknown server: " ++ input.serverId), [])
  | some server =>
    if !server.enabled then
      (Except.error ("Server is disabled: " ++ input.serverId), [])
    else if !isToolAllowed input.name server.allowTools then
      (Except.error ("Tool " ++ input.name ++ " is blocked by allowTools for server "
        ++ input.serverId), [])
    else
      let firstLookup := [ProxyEvent.toolLookup input.serverId input.name]
      match env.catalog 0 with
      | some knownTool => ToolProxy.finish env 0 knownTool input firstLookup
      | none =>
        if env.hasRefresh then
          let events := firstLookup ++ [ProxyEvent.refresh input.serverId,
            ProxyEvent.toolLookup input.serverId input.name]
          match env.catalog 1 with
          | none => (Except.error ("Tool " ++ input.name ++
              " not found in local catalog for server " ++ input.serverId ++ "."), events)
          | some knownTool => ToolProxy.finish env 1 knownTool input events
        else
          (Except.error ("Tool " ++ input.name ++
            " not found in local catalog for server " ++ input.serverId ++ "."),
           firstLookup)

/-- The stdio retry policy of `upstream-manager.ts` (after the
constructor's floors have been applied). -/
structure StdioPolicy where
  maxRetries : Nat
  baseBackoffMs : Nat
  maxBackoffMs : Nat
deriving DecidableEq

/-- `UpstreamManager.computeBackoffMs`: exponent floored at zero (Nat
subtraction), doubling from the base, capped by `maxBackoffMs`.  The raw
product is a whole number, so `Math.trunc` is the identity; a float
overflow to Infinity is also absorbed by the cap. -/
def computeBackoffMs (policy : StdioPolicy) (consecutiveFailures : Nat) : Nat :=
  min policy.maxBackoffMs (policy.baseBackoffMs * 2 ^ (consecutiveFailures - 1))

/-- `maxAttempts` of `withServerOperation`: `stdioRetries + 1` for stdio
transports, 1 for HTTP. -/
def maxAttemptsFor (policy : StdioPolicy) (stdioTransport : Bool) : Nat :=
  if stdioTransport then policy.maxRetries + 1 else 1

/-- `ServerHealthState` from `upstream-manager.ts` (per-server, in
memory).  `serverId` and `transport` are immutable identity fields and
are carried outside the state. -/
structure ServerHealthState where
  enabled : Bool
  connected : Bool
  totalCalls : Nat
  successfulCalls : Nat
  failedCalls : Nat
  consecutiveFailures : Nat
  restarts : Nat
  lastError : Option String
  lastConnectedAtMs : Option Nat
  lastSuccessAtMs : Option Nat
  lastFailureAtMs : Option Nat
  nextRetryAtMs : Option Nat
deriving DecidableEq

/-- `createInitialHealth`: all counters zero, nothing connected. -/
def createInitialHealth (enabled : Bool) : ServerHealthState :=
  { enabled := enabled
    connected := false
    totalCalls := 0
    successfulCalls := 0
    failedCalls := 0
    consecutiveFailures := 0
    restarts := 0
    lastError := none
    lastConnectedAtMs := none
    lastSuccessAtMs := none
    nextRetryAtMs := none
    lastFailureAtMs := none }

/-- `markSuccess`: bump the success counter, reset the consecutive
failure streak, clear the last error and the retry gate. -/
def markSuccess (h : ServerHealthState) (now : Nat) : ServerHealthState :=
  { h with
    successfulCalls := h.successfulCalls + 1
    consecutiveFailures := 0
    lastError := none
    lastSuccessAtMs := some now
    nextRetryAtMs := none }

/-- `markFailure`: bump the failure counter and the consecutive failure
streak, record the error. -/
def markFailure (h : ServerHealthState) (errorMessage : String) (now : Nat) :
    ServerHealthState :=
  { h with
    failedCalls := h.failedCalls + 1
    consecutiveFailures := h.consecutiveFailures + 1
    lastFailureAtMs := some now
    lastError := some errorMessage }

/-- Effect of `getConnection` on health when it succeeds: an existing
connection is reused unchanged; a newly built one sets `connected` and
stamps `lastConnectedAtMs`. -/
def connectEffect (h : ServerHealthState) (now : Nat) : ServerHealthState :=
  if h.connected then h
  else { h with connected := true, lastConnectedAtMs := some now }

/-- What one attempt of the operation loop observes: either the
connection and operation succeed, or something throws (normalized to its
message).  `now` is the wall-clock reading at the end of the attempt. -/
inductive AttemptOutcome where
  | success (now : Nat)
  | failure (msg : String) (now : Nat)
deriving DecidableEq

/-- The attempt loop of `withServerOperation` (lines 150-194): one
outcome per attempt, up to `maxAttempts` entries.  On success:
`markSuccess` (after the connection effect).  On failure: `markFailure`,
dispose the connection (`connected := false`); when the transport is
stdio and attempts remain, compute the backoff, set `nextRetryAtMs`,
bump `restarts`, sleep and retry; otherwise the last error is thrown.
The empty-list case models the unreachable fallback throw after the
loop.  `waitIfBackoffActive` only sleeps and clears `nextRetryAtMs`; its
clearing is not modelled because no claim concerns the gate's value
between operations. -/
def runAttempts (policy : StdioPolicy) (stdioTransport : Bool) :
    List AttemptOutcome → ServerHealthState → Except String Unit × ServerHealthState
  | [], h => (Except.error ("Operation failed"), h)
  | outcome :: rest, h =>
    match outcome with
    | AttemptOutcome.success now =>
      (Except.ok (), markSuccess (connectEffect h now) now)
    | AttemptOutcome.failure msg now =>
      let h1 := { markFailure h msg now with connected := false }
      if stdioTransport && !rest.isEmpty then
        let delayMs := computeBackoffMs policy h1.consecutiveFailures
        let h2 := { h1 with
                    nextRetryAtMs := some (now + delayMs)
                    restarts := h1.restarts + 1 }
        runAttempts policy stdioTransport rest h2
      else (Except.error msg, h1)

/-- `UpstreamManager.withServerOperation`: reject disabled servers
(before any counter changes), then bump `totalCalls` once and run the
attempt loop.  The caller passes one outcome per available attempt, so
`outcomes.length = maxAttemptsFor policy stdioTransport`. -/
def withServerOperation (policy : StdioPolicy) (stdioTransport : Bool)
    (outcomes : List AttemptOutcome) (h : ServerHealthState) :
    Except String Unit × ServerHealthState :=
  if !h.enabled then (Except.error ("Server is disabled"), h)
  else
    let h1 := { h with totalCalls := h.totalCalls + 1 }
    runAttempts policy stdioTransport outcomes h1

/-- A sequence of `listTools`/`callTool` operations on one server's
health state: each operation is described by its per-attempt outcomes.
Returns the per-operation results and the final state. -/
def runOps (policy : StdioPolicy) (stdioTransport : Bool) :
    List (List AttemptOutcome) → ServerHealthState →
    List (Except String Unit) × ServerHealthState
  | [], h => ([], h)
  | op :: rest, h =>
    let step := withServerOperation policy stdioTransport op h
    let tail := runOps policy stdioTransport rest step.2
    (step.1 :: tail.1, tail.2)

/-- Messages the parent receives from the sandbox worker
(`sandbox.ts`). -/
inductive WorkerMessage (T : Type) where
  | call (callId fnId : String)
  | result (value : T)
  | error (msg : String)

/-- The events that can settle (or not) the `runSandboxedCode` promise:
the deadline timer firing, a worker message, a worker error, or worker
exit with some code. -/
inductive SandboxEvent (T : Type) where
  | timeout
  | message (m : WorkerMessage T)
  | workerError (msg : String)
  | exit (code : Nat)

/-- The promise/timer state of one `runSandboxedCode` invocation. -/
structure SandboxState (T : Type) where
  completed : Bool
  outcome : Option (Except String T)
  timerCleared : Bool
  terminated : Bool

/-- State before any event: `completed = false`, promise unsettled. -/
def initialSandboxState (T : Type) : SandboxState T :=
  { completed := false, outcome := none, timerCleared := false, terminated := false }

/-- `finishWithResult` from `sandbox.ts`: guarded by the `completed`
flag; on first settlement it clears the timer, terminates the worker and
resolves. -/
def finishWithResult {T : Type} (s : SandboxState T) (value : T) : SandboxState T :=
  if s.completed then s
  else { completed := true
         outcome := some (Except.ok value)
         timerCleared := true
         terminated := true }

/-- `finishWithError` from `sandbox.ts`: guarded by the `completed`
flag; on first settlement it clears the timer, terminates the worker and
rejects. -/
def finishWithError {T : Type} (s : SandboxState T) (msg : String) : SandboxState T :=
  if s.completed then s
  else { completed := true
         outcome := some (Except.error msg)
         timerCleared := true
         terminated := true }

/-- The rejection message of the deadline timer. -/
def timeoutMessage (timeoutMs : Nat) : String :=
  "Code execution timed out after " ++ Nat.repr timeoutMs ++ "ms"

/-- One event handled by the listeners of `runSandboxedCode`: the timer
rejects with the timeout message; a `result` message resolves; an
`error` message or worker error rejects; a `call` message dispatches a
host call without settling; a nonzero exit before completion rejects. -/
def sandboxStep {T : Type} (timeoutMs : Nat) (s : SandboxState T) :
    SandboxEvent T → SandboxState T
  | SandboxEvent.timeout => finishWithError s (timeoutMessage timeoutMs)
  | SandboxEvent.message (WorkerMessage.call _ _) => s
  | SandboxEvent.message (WorkerMessage.result v) => finishWithResult s v
  | SandboxEvent.message (WorkerMessage.error e) => finishWithError s e
  | SandboxEvent.workerError e => finishWithError s e
  | SandboxEvent.exit code =>
    if !s.completed && code != 0 then
      finishWithError s ("Sandbox worker exited with code " ++ Nat.repr code)
    else s

/-- Process a sequence of events in arrival order. -/
def runSandboxEvents {T : Type} (timeoutMs : Nat) :
    List (SandboxEvent T) → SandboxState T → SandboxState T
  | [], s => s
  | e :: rest, s => runSandboxEvents timeoutMs rest (sandboxStep timeoutMs s e)

/-- JS runtime values as seen by the execute-output normalizer
(`execute-output.ts`).  Strings are `List Char` (JS code-unit sequences)
so that lengths and slices can be reasoned about directly; numbers are
restricted to the integers the normalizer produces and compares. -/
inductive JsVal where
  | undef
  | null
  | bool (b : Bool)
  | num (n : Int)
  | bigint (n : Int)
  | str (s : List Char)
  | arr (items : List JsVal)
  | obj (fields : List (String × JsVal))

/-- JS property read `fields[key]` on an object (keys are unique in a JS
object; the first binding wins in this model). -/
def getField : List (String × JsVal) → String → Option JsVal
  | [], _ => none
  | (k, v) :: rest, key => if k = key then some v else getField rest key

/-- JS property read defaulting to `undefined` for a missing key. -/
def getFieldD (fields : List (String × JsVal)) (key : String) : JsVal :=
  (getField fields key).getD JsVal.undef

/-- The JS `in` operator: key presence, even when the value is
`undefined`. -/
def hasField (fields : List (String × JsVal)) (key : String) : Bool :=
  fields.any (fun p => p.1 == key)

/-- JS property assignment `obj[key] = v`: overwrite in place when the
key exists, append otherwise. -/
def setField (fields : List (String × JsVal)) (key : String) (v : JsVal) :
    List (String × JsVal) :=
  if fields.any (fun p => p.1 == key) then
    fields.map (fun p => if p.1 = key then (key, v) else p)
  else fields ++ [(key, v)]

/-- `isObject` from `execute-output.ts`: truthy, object-typed, and not
an array. -/
def JsVal.isObject : JsVal → Bool
  | JsVal.obj _ => true
  | _ => false

/-- `asString` from `execute-output.ts`: identity on strings, empty
string otherwise. -/
def asString : JsVal → List Char
  | JsVal.str s => s
  | _ => []

/-- Decimal digit character. -/
def digitChar (n : Nat) : Char := Char.ofNat (48 + n)

/-- Accumulator loop for the decimal rendering of a natural number,
structurally recursive on a fuel bound; `natDecimal` supplies fuel `n`,
which always suffices because the quotient chain `n, n/10, ...` reaches
a single digit within `n` steps. -/
def natDecimalAux : Nat → Nat → List Char → List Char
  | 0, n, acc => digitChar (n % 10) :: acc
  | fuel + 1, n, acc =>
    let acc2 := digitChar (n % 10) :: acc
    if n < 10 then acc2 else natDecimalAux fuel (n / 10) acc2

/-- JS decimal rendering of a nonnegative integer, as produced by a
template literal such as the one inside `truncateString`. -/
def natDecimal (n : Nat) : List Char := natDecimalAux n n []

/-- JS decimal rendering of an integer (used for bigint stringification). -/
def intDecimal (n : Int) : List Char :=
  if n < 0 then '-' :: natDecimal n.natAbs else natDecimal n.natAbs

def MAX_STRING_CHARS : Nat := 4000
def MAX_ARRAY_ITEMS : Nat := 40
def MAX_OBJECT_KEYS : Nat := 60
def MAX_DEPTH : Nat := 7
def BINARY_PREVIEW_CHARS : Nat := 96

/-- `truncateString` from `execute-output.ts`: strings not longer than
the cap pass through; longer strings are sliced to
`max(0, maxChars - 21)` code units and the suffix
`[truncated:{originalLength}]` is appended. -/
def truncateString (value : List Char) (maxChars : Nat) : List Char :=
  if value.length ≤ maxChars then value
  else value.take (maxChars - 21) ++
    (("[truncated:").data ++ natDecimal value.length ++ ("]").data)

/-- Whitespace removed by JS `String.prototype.trim` (the ASCII cases). -/
def isJsWhitespace (c : Char) : Bool :=
  c == ' ' || c == '\t' || c == '\n' || c == '\r' || c == '\x0b' || c == '\x0c'

/-- JS `trim`: strip whitespace from both ends. -/
def trimChars (l : List Char) : List Char :=
  ((l.dropWhile isJsWhitespace).reverse.dropWhile isJsWhitespace).reverse

/-- `estimateBase64Bytes` from `execute-output.ts`:
`floor(len * 3 / 4) - padding`, clamped at zero, with padding 2/1/0 for
trailing `==`/`=`/none of the trimmed input. -/
def estimateBase64Bytes (base64 : List Char) : Nat :=
  let cleaned := trimChars base64
  if cleaned.length = 0 then 0
  else
    let padding : Nat :=
      if cleaned.reverse.take 2 = ['=', '='] then 2
      else if cleaned.reverse.take 1 = ['='] then 1
      else 0
    cleaned.length * 3 / 4 - padding

/-- `normalizeUnknown` from `execute-output.ts`: depth-capped generic
normalization — strings truncated to 4000, arrays capped at 40 items
with a sentinel, objects capped at 60 keys with a `__truncatedKeys`
counter, bigints stringified, `undefined` preserved.  Recursion is on
the remaining depth budget, exactly as the source's depth guard bounds
it. -/
def normalizeUnknown (value : JsVal) (depth : Nat) : JsVal :=
  if MAX_DEPTH ≤ depth then JsVal.str (("[max_depth_reached]").data)
  else
    match value with
    | JsVal.str s => JsVal.str (truncateString s MAX_STRING_CHARS)
    | JsVal.null => JsVal.null
    | JsVal.num n => JsVal.num n
    | JsVal.bool b => JsVal.bool b
    | JsVal.undef => JsVal.undef
    | JsVal.bigint n => JsVal.str (intDecimal n)
    | JsVal.arr items =>
      let normalized :=
        (items.take MAX_ARRAY_ITEMS).map (fun entry => normalizeUnknown entry (depth + 1))
      if MAX_ARRAY_ITEMS < items.length then
        JsVal.arr (normalized ++
          [JsVal.str ((("[").data ++ natDecimal (items.length - MAX_ARRAY_ITEMS) ++
            (" items truncated]").data))])
      else JsVal.arr normalized
    | JsVal.obj fields =>
      let kept :=
        (fields.take MAX_OBJECT_KEYS).map (fun p => (p.1, normalizeUnknown p.2 (depth + 1)))
      if MAX_OBJECT_KEYS < fields.length then
        JsVal.obj (setField kept ("__truncatedKeys")
          (JsVal.num (Int.ofNat (fields.length - MAX_OBJECT_KEYS))))
      else JsVal.obj kept
termination_by MAX_DEPTH - depth
decreasing_by all_goals (simp [MAX_DEPTH] at *; omega)

/-- `normalizeContentItem` from `execute-output.ts`: rewrite a content
item by its `type` tag (`text`, `image`/`audio`, `resource`,
`resource_link`), falling back to generic normalization. -/
def normalizeContentItem (value : JsVal) : JsVal :=
  match value with
  | JsVal.obj fields =>
    match getField fields ("type") with
    | some (JsVal.str t) =>
      if t = ("text").data then
        JsVal.obj [("type", JsVal.str (("text").data)),
          ("text", JsVal.str (truncateString (asString (getFieldD fields ("text")))
            MAX_STRING_CHARS))]
      else if t = ("image").data || t = ("audio").data then
        let data := asString (getFieldD fields ("data"))
        JsVal.obj [("type", JsVal.str t),
          ("mimeType", JsVal.str (asString (getFieldD fields ("mimeType")))),
          ("dataPreview", JsVal.str (truncateString data BINARY_PREVIEW_CHARS)),
          ("estimatedBytes", JsVal.num (Int.ofNat (estimateBase64Bytes data))),
          ("dataTruncated", JsVal.bool (BINARY_PREVIEW_CHARS < data.length))]
      else if t = ("resource").data then
        match getFieldD fields ("resource") with
        | JsVal.obj resource =>
          let textPart : List (String × JsVal) :=
            match getField resource ("text") with
            | some (JsVal.str s) =>
              [("textPreview", JsVal.str (truncateString s MAX_STRING_CHARS)),
               ("textLength", JsVal.num (Int.ofNat s.length)),
               ("textTruncated", JsVal.bool (MAX_STRING_CHARS < s.length))]
            | _ => []
          let blobPart : List (String × JsVal) :=
            match getField resource ("blob") with
            | some (JsVal.str b) =>
              [("blobPreview", JsVal.str (truncateString b BINARY_PREVIEW_CHARS)),
               ("estimatedBytes", JsVal.num (Int.ofNat (estimateBase64Bytes b))),
               ("blobTruncated", JsVal.bool (BINARY_PREVIEW_CHARS < b.length))]
            | _ => []
          JsVal.obj [("type", JsVal.str (("resource").data)),
            ("resource", JsVal.obj
              ([("uri", JsVal.str (asString (getFieldD resource ("uri")))),
                ("mimeType", JsVal.str (asString (getFieldD resource ("mimeType"))))] ++
               textPart ++ blobPart))]
        | _ => normalizeUnknown value 0
      else if t = ("resource_link").data then
        JsVal.obj [("type", JsVal.str (("resource_link").data)),
          ("uri", JsVal.str (asString (getFieldD fields ("uri")))),
          ("name", JsVal.str (asString (getFieldD fields ("name")))),
          ("mimeType", JsVal.str (asString (getFieldD fields ("mimeType")))),
          ("description", JsVal.str (truncateString
            (asString (getFieldD fields ("description"))) MAX_STRING_CHARS))]
      else normalizeUnknown value 0
    | _ => normalizeUnknown value 0
  | _ => normalizeUnknown value 0

/-- `normalizeExecuteOutput` from `execute-output.ts`: values without a
`content` array go through generic normalization; otherwise the base
object is normalized generically, `content` is capped at 40 items with
each kept item rewritten by `normalizeContentItem`, the truncation is
annotated with `contentTruncated` and `contentOriginalLength`, and
`structuredContent` (when the key is present) is normalized
generically. -/
def normalizeExecuteOutput (value : JsVal) : JsVal :=
  match value with
  | JsVal.obj fields =>
    match getField fields ("content") with
    | some (JsVal.arr contentItems) =>
      let normalizedBase := normalizeUnknown value 0
      let base : List (String × JsVal) :=
        match normalizedBase with
        | JsVal.obj b => b
        | _ => []
      let out1 := setField base ("content")
        (JsVal.arr ((contentItems.take MAX_ARRAY_ITEMS).map normalizeContentItem))
      let out2 :=
        if MAX_ARRAY_ITEMS < contentItems.length then
          setField (setField out1 ("contentTruncated") (JsVal.bool true))
            ("contentOriginalLength") (JsVal.num (Int.ofNat contentItems.length))
        else out1
      let out3 :=
        if hasField fields ("structuredContent") then
          setField out2 ("structuredContent")
            (normalizeUnknown (getFieldD fields ("structuredContent")) 0)
        else out2
      JsVal.obj out3
    | _ => normalizeUnknown value 0
  | _ => normalizeUnknown value 0

/-- Whether an `Except` result is a success. -/
def resultIsOk {ε α : Type} : Except ε α → Bool
  | Except.ok _ => true
  | Except.error _ => false

/-- The record the spec expects `getTool` to return after
`replaceServerTools(s, h, p, T)` for `t ∈ T`: the tool `t` itself,
carrying the snapshot hash `h` of the replacement. -/
def recordOf (snapshotHash : String) (t : NormalizedToolRecord) : ToolRecord :=
  { serverId := t.serverId
    serverName := t.serverName
    serverUrl := t.serverUrl
    toolName := t.toolName
    title := t.title
    description := t.description
    inputSchema := t.inputSchema
    outputSchema := t.outputSchema
    annotations := t.annotations
    snapshotHash := snapshotHash }

/-- Concrete catalog record used in the refresh-error scenario: the
stale tool whose schema (as compiled by ajv) rejects the call's
arguments with `staleValidationError`. -/
def staleTool : ToolRecord :=
  { serverId := "s1"
    serverName := "Server One"
    serverUrl := "https://example.test/mcp"
    toolName := "records.update"
    title := none
    description := "Update a record"
    inputSchema := [("type", Json.str ("object")),
      ("required", Json.arr [Json.str ("id")])]
    outputSchema := none
    annotations := none
    snapshotHash := "snap1" }

/-- The refreshed catalog record: a new snapshot whose schema requires a
different property and therefore rejects the same arguments with a
different message. -/
def freshTool : ToolRecord :=
  { staleTool with
    inputSchema := [("type", Json.str ("object")),
      ("required", Json.arr [Json.str ("name")])]
    snapshotHash := "snap2" }

/-- The ajv error message for the stale schema. -/
def staleValidationError : String :=
  "Input validation failed for s1.records.update: must have required property id"

/-- The ajv error message for the refreshed schema. -/
def freshValidationError : String :=
  "Input validation failed for s1.records.update: must have required property name"

/-- A server record whose allow-list admits everything. -/
def openServer : ServerRecord :=
  { id := "s1"
    name := "Server One"
    url := "https://example.test/mcp"
    enabled := true
    allowTools := ["*"]
    lastSyncedAt := none }

/-- Environment of the refresh-error scenario: the call's arguments
fail validation against both the stale and the refreshed record, with
distinct messages. -/
def refreshErrorEnv : ProxyEnv :=
  { servers := [openServer]
    catalog := fun n => if n = 0 then some staleTool else some freshTool
    validate := fun tool =>
      if tool.snapshotHash == ("snap1") then some staleValidationError
      else some freshValidationError
    hasRefresh := true
    upstreamResult := Json.null }

/-- The invocation used by the refresh-error scenario. -/
def refreshErrorInput : ExecuteToolInput :=
  { serverId := "s1", name := "records.update" }

/-- A server whose configured allow-list names one unrelated tool. -/
def narrowServer : ServerRecord :=
  { openServer with allowTools := ["records.read"] }

/-- A server whose configured allow-list is the empty list. -/
def emptyAllowServer : ServerRecord :=
  { openServer with allowTools := [] }

/-- An environment with a single configured server. -/
def envWith (server : ServerRecord) : ProxyEnv :=
  { servers := [server]
    catalog := fun _ => some staleTool
    validate := fun _ => none
    hasRefresh := false
    upstreamResult := Json.null }

/-- An invocation blocked by `narrowServer`'s allow-list. -/
def blockedInput : ExecuteToolInput :=
  { serverId := "s1", name := "records.update" }

/-- An arbitrary invocation against the empty-allow-list server. -/
def anyInput : ExecuteToolInput :=
  { serverId := "s1", name := "whatever.tool" }

/-- A concrete catalog row. -/
def rowAlpha : ToolRow :=
  { server_id := "s1"
    server_name := "Server One"
    server_url := "https://example.test/mcp"
    tool_name := "alpha"
    title := none
    description := "tool alpha"
    input_schema_json := Json.obj []
    output_schema_json := none
    annotations_json := none
    searchable_text := "alpha tool alpha"
    snapshot_hash := "h1" }

/-- A second concrete catalog row on the same server. -/
def rowBeta : ToolRow :=
  { rowAlpha with
    tool_name := "beta"
    description := "tool beta"
    searchable_text := "beta tool beta" }

/-- A catalog holding two tools. -/
def twoToolDb : CatalogDb := { tools := [rowAlpha, rowBeta] }

/-- The search query of the limit-zero scenario. -/
def limitZeroQuery : SearchQuery := { query := none, serverId := none, limit := some 0 }

/-- One stdio operation whose two available attempts both fail. -/
def failTwiceOp : List AttemptOutcome :=
  [AttemptOutcome.failure ("connect failed") 0,
   AttemptOutcome.failure ("connect failed") 1]

/-- A content item holding a 10000-character text. -/
def longTextItemFields : List (String × JsVal) :=
  [("type", JsVal.str (("text").data)),
   ("text", JsVal.str (List.replicate 10000 'x'))]

/-- An execute result whose `content` array holds the long text item. -/
def longTextResultFields : List (String × JsVal) :=
  [("content", JsVal.arr [JsVal.obj longTextItemFields])]

/-- A normalized tool record whose `serverId` names a different server
than the one being replaced. -/
def mismatchedTool : NormalizedToolRecord :=
  { serverId := "other"
    serverName := "Other Server"
    serverUrl := "https://other.test/mcp"
    toolName := "t1"
    description := ""
    inputSchema := []
    outputSchema := none
    annotations := none
    title := none
    searchableText := ""
    snapshotHash := "zz" }

/-!  Theorems.  -/

/-- Helper: every handler of `runSandboxedCode` is a no-op once the
`completed` flag is set. -/
theorem sandboxStep_of_completed {T : Type} (timeoutMs : Nat) (s : SandboxState T)
    (e : SandboxEvent T) (hc : s.completed = true) : sandboxStep timeoutMs s e = s := by
  cases e with
  | timeout => simp [sandboxStep, finishWithError, hc]
  | message m => cases m <;> simp [sandboxStep, finishWithError, finishWithResult, hc]
  | workerError msg => simp [sandboxStep, finishWithError, hc]
  | exit code => simp [sandboxStep, hc]

/-- Helper: a settled sandbox state absorbs any further events. -/
theorem runSandboxEvents_of_completed {T : Type} (timeoutMs : Nat)
    (evs : List (SandboxEvent T)) (s : SandboxState T) (hc : s.completed = true) :
    runSandboxEvents timeoutMs evs s = s := by
  induction evs with
  | nil => rfl
  | cons e rest ih =>
    show runSandboxEvents timeoutMs rest (sandboxStep timeoutMs s e) = s
    rw [sandboxStep_of_completed timeoutMs s e hc]
    exact ih

/-- Helper: event processing splits over list concatenation. -/
theorem runSandboxEvents_append {T : Type} (timeoutMs : Nat)
    (a b : List (SandboxEvent T)) (s : SandboxState T) :
    runSandboxEvents timeoutMs (a ++ b) s =
      runSandboxEvents timeoutMs b (runSandboxEvents timeoutMs a s) := by
  induction a generalizing s with
  | nil => rfl
  | cons e rest ih =>
    show runSandboxEvents timeoutMs (rest ++ b) (sandboxStep timeoutMs s e) = _
    exact ih (sandboxStep timeoutMs s e)

/-- Claim C8: the sandbox runner settles its promise at most once.  Once
the event history has settled the state, any further worker messages,
errors or exits leave the outcome unchanged; and if the deadline timer
fires before any settling event, the outcome is the timeout rejection,
whatever arrives afterwards — in particular a later `result` message
never resolves the promise. -/
theorem sandbox_settles_once {T : Type} (timeoutMs : Nat)
    (pre post : List (SandboxEvent T)) :
    ((runSandboxEvents timeoutMs pre (initialSandboxState T)).completed = true →
      (runSandboxEvents timeoutMs (pre ++ post) (initialSandboxState T)).outcome =
        (runSandboxEvents timeoutMs pre (initialSandboxState T)).outcome) ∧
    ((runSandboxEvents timeoutMs pre (initialSandboxState T)).completed = false →
      (runSandboxEvents timeoutMs (pre ++ SandboxEvent.timeout :: post)
          (initialSandboxState T)).outcome =
        some (Except.error (timeoutMessage timeoutMs))) := by
  constructor
  · intro hc
    rw [runSandboxEvents_append, runSandboxEvents_of_completed timeoutMs post _ hc]
  · intro hnc
    rw [runSandboxEvents_append]
    show (runSandboxEvents timeoutMs post
      (sandboxStep timeoutMs (runSandboxEvents timeoutMs pre (initialSandboxState T))
        SandboxEvent.timeout)).outcome = _
    have hstep : sandboxStep timeoutMs
        (runSandboxEvents timeoutMs pre (initialSandboxState T)) SandboxEvent.timeout =
        { completed := true
          outcome := some (Except.error (timeoutMessage timeoutMs))
          timerCleared := true
          terminated := true } := by
      show finishWithError _ _ = _
      unfold finishWithError
      rw [hnc]
      simp
    rw [hstep, runSandboxEvents_of_completed timeoutMs post _ rfl]

/-- Witness for `sandbox_settles_once`: after a non-settling host-call
message the state is unsettled; firing the timer then yields the timeout
rejection even though a `result` message arrives afterwards. -/
theorem sandbox_settles_once_witness :
    ((runSandboxEvents 100 [SandboxEvent.message (WorkerMessage.call ("c1") ("fn"))]
        (initialSandboxState Nat)).completed = false) ∧
      (runSandboxEvents 100
          ([SandboxEvent.message (WorkerMessage.call ("c1") ("fn"))] ++
            SandboxEvent.timeout :: [SandboxEvent.message (WorkerMessage.result 7)])
          (initialSandboxState Nat)).outcome =
        some (Except.error (timeoutMessage 100)) :=
  ⟨rfl, (sandbox_settles_once 100
      [SandboxEvent.message (WorkerMessage.call ("c1") ("fn"))]
      [SandboxEvent.message (WorkerMessage.result 7)]).2 rfl⟩

/-- Claim C7: the retry backoff delay equals
`min(maxBackoffMs, baseBackoffMs * 2 ^ (consecutiveFailures - 1))` with
the exponent floored at zero; on `consecutiveFailures ≥ 1` it is
monotonically non-decreasing and bounded above by `maxBackoffMs`. -/
theorem computeBackoffMs_spec (policy : StdioPolicy) (c1 c2 : Nat)
    (h1 : 1 ≤ c1) (h12 : c1 ≤ c2) :
    computeBackoffMs policy c1 =
        min policy.maxBackoffMs (policy.baseBackoffMs * 2 ^ (c1 - 1)) ∧
      computeBackoffMs policy c1 ≤ computeBackoffMs policy c2 ∧
      computeBackoffMs policy c2 ≤ policy.maxBackoffMs := by
  refine ⟨rfl, ?_, Nat.min_le_left _ _⟩
  unfold computeBackoffMs
  exact min_le_min le_rfl
    (Nat.mul_le_mul_left _ (Nat.pow_le_pow_right (by norm_num) (by omega)))

/-- Witness for `computeBackoffMs_spec` at the default policy,
`consecutiveFailures` 1 and 3. -/
theorem computeBackoffMs_spec_witness :
    1 ≤ 1 ∧ (1 : Nat) ≤ 3 ∧
      (computeBackoffMs ⟨3, 250, 4000⟩ 1 = min 4000 (250 * 2 ^ (1 - 1)) ∧
        computeBackoffMs ⟨3, 250, 4000⟩ 1 ≤ computeBackoffMs ⟨3, 250, 4000⟩ 3 ∧
        computeBackoffMs ⟨3, 250, 4000⟩ 3 ≤ 4000) :=
  ⟨by decide, by decide, computeBackoffMs_spec ⟨3, 250, 4000⟩ 1 3 (by decide) (by decide)⟩

/-- Claim C4 counterexample: calling a disabled server rejects with the
disabled error but leaves `totalCalls` at 0 — the disabled check runs
before the increment, so the counter is not incremented by 1 as
claimed. -/
theorem withServerOperation_disabled_counterexample :
    (withServerOperation ⟨3, 250, 4000⟩ false [AttemptOutcome.success 0]
        (createInitialHealth false)).1 = Except.error ("Server is disabled") ∧
      (withServerOperation ⟨3, 250, 4000⟩ false [AttemptOutcome.success 0]
          (createInitialHealth false)).2.totalCalls = 0 ∧
      ¬ (withServerOperation ⟨3, 250, 4000⟩ false [AttemptOutcome.success 0]
          (createInitialHealth false)).2.totalCalls =
            (createInitialHealth false).totalCalls + 1 :=
  ⟨rfl, rfl, by decide⟩

/-- Claim C4 (amended): each operation rejects a disabled server before
incrementing `totalCalls`, so after a disabled-server rejection the
whole health state — every counter included — is unchanged. -/
theorem withServerOperation_disabled_rejects_first (policy : StdioPolicy)
    (stdioTransport : Bool) (outcomes : List AttemptOutcome)
    (h : ServerHealthState) (hdis : h.enabled = false) :
    withServerOperation policy stdioTransport outcomes h =
      (Except.error ("Server is disabled"), h) := by
  unfold withServerOperation
  simp [hdis]

/-- Witness for `withServerOperation_disabled_rejects_first` on the
all-zero disabled state. -/
theorem withServerOperation_disabled_rejects_first_witness :
    (createInitialHealth false).enabled = false ∧
      withServerOperation ⟨3, 250, 4000⟩ true [] (createInitialHealth false) =
        (Except.error ("Server is disabled"), createInitialHealth false) :=
  ⟨rfl, withServerOperation_disabled_rejects_first ⟨3, 250, 4000⟩ true []
    (createInitialHealth false) rfl⟩

/-- Claim C1 counterexample: arguments fail validation against the
stale record, a refresh hook exists, the refresh completes, and the
re-looked-up record still fails validation — yet the proxy propagates
the refreshed record's error, not the original one. -/
theorem refreshed_validation_error_counterexample :
    refreshErrorEnv.validate staleTool = some staleValidationError ∧
      refreshErrorEnv.hasRefresh = true ∧
      refreshErrorEnv.catalog 0 = some staleTool ∧
      refreshErrorEnv.catalog 1 = some freshTool ∧
      refreshErrorEnv.validate freshTool = some freshValidationError ∧
      (ToolProxy.call refreshErrorEnv refreshErrorInput).1 =
        Except.error freshValidationError ∧
      freshValidationError ≠ staleValidationError :=
  ⟨rfl, rfl, rfl, rfl, rfl, rfl, by decide⟩

/-- Claim C1 (amended): when validation fails, a refresh hook exists,
the refresh completes, and the re-looked-up record still fails
validation, the error propagated to the caller is the one produced by
validating against the refreshed record; the original error is
propagated only when no hook exists or the re-lookup finds nothing. -/
theorem refreshed_validation_error_propagates (env : ProxyEnv)
    (input : ExecuteToolInput) (server : ServerRecord)
    (knownTool refreshedTool : ToolRecord) (e1 e2 : String)
    (hfind : env.servers.find? (fun row => row.id == input.serverId) = some server)
    (henabled : server.enabled = true)
    (hallowed : isToolAllowed input.name server.allowTools = true)
    (hlookup : env.catalog 0 = some knownTool)
    (hval1 : env.validate knownTool = some e1)
    (hhook : env.hasRefresh = true)
    (hrelookup : env.catalog 1 = some refreshedTool)
    (hval2 : env.validate refreshedTool = some e2) :
    (ToolProxy.call env input).1 = Except.error e2 := by
  unfold ToolProxy.call ToolProxy.finish validateInputWithRefresh
  rw [hfind]
  simp [henabled, hallowed, hlookup, hval1, hhook, hrelookup, hval2]

/-- Witness for `refreshed_validation_error_propagates` on the concrete
refresh-error scenario. -/
theorem refreshed_validation_error_propagates_witness :
    (ToolProxy.call refreshErrorEnv refreshErrorInput).1 =
      Except.error freshValidationError :=
  refreshed_validation_error_propagates refreshErrorEnv refreshErrorInput openServer
    staleTool freshTool staleValidationError freshValidationError
    rfl rfl rfl rfl rfl rfl rfl rfl

/-- Claim C6: a name passes the allow-list iff the list contains `*`, or
some pattern equals the name, or some pattern ending in `*` is — with
its trailing `*` stripped — a prefix of the name; and a call whose name
fails the check is rejected with the blocked error before any catalog
tool lookup or upstream call (its event trace is empty). -/
theorem isToolAllowed_spec (name : String) (l : List String) (env : ProxyEnv)
    (input : ExecuteToolInput) (server : ServerRecord)
    (hfind : env.servers.find? (fun row => row.id == input.serverId) = some server)
    (henabled : server.enabled = true)
    (hblocked : isToolAllowed input.name server.allowTools = false) :
    (isToolAllowed name l = true ↔
      ("*") ∈ l ∨ (∃ p ∈ l, p = name) ∨
        ∃ p ∈ l, jsEndsWith p ("*") = true ∧ (jsDropLast p).data <+: name.data) ∧
      ToolProxy.call env input =
        (Except.error ("Tool " ++ input.name ++
          " is blocked by allowTools for server " ++ input.serverId), []) := by
  constructor
  · unfold isToolAllowed
    split
    · rename_i hstar
      simp only [true_iff]
      exact Or.inl (List.mem_of_elem_eq_true hstar)
    · rename_i hstar
      have hnotmem : ("*") ∉ l := by
        intro hm
        exact hstar (List.elem_eq_true_of_mem hm)
      simp only [List.any_eq_true, Bool.or_eq_true, beq_iff_eq, Bool.and_eq_true,
        jsStartsWith, decide_eq_true_eq]
      constructor
      · rintro ⟨p, hp, heq | hpre⟩
        · exact Or.inr (Or.inl ⟨p, hp, heq⟩)
        · exact Or.inr (Or.inr ⟨p, hp, hpre.1, hpre.2⟩)
      · rintro (hmem | ⟨p, hp, heq⟩ | ⟨p, hp, he, hs⟩)
        · exact absurd hmem hnotmem
        · exact ⟨p, hp, Or.inl heq⟩
        · exact ⟨p, hp, Or.inr ⟨he, hs⟩⟩
  · unfold ToolProxy.call
    rw [hfind]
    simp [henabled, hblocked]

/-- Witness for `isToolAllowed_spec`: the single-pattern list
`["records.read"]` blocks `records.update`, and the proxy rejects it
with an empty event trace. -/
theorem isToolAllowed_spec_witness :
    (envWith narrowServer).servers.find?
        (fun row => row.id == blockedInput.serverId) = some narrowServer ∧
      narrowServer.enabled = true ∧
      isToolAllowed blockedInput.name narrowServer.allowTools = false ∧
      ((isToolAllowed ("x") ["records.read"] = true ↔
          ("*") ∈ ["records.read"] ∨
            (∃ p ∈ ["records.read"], p = ("x" : String)) ∨
            ∃ p ∈ (["records.read"] : List String), jsEndsWith p ("*") = true ∧
              (jsDropLast p).data <+: ("x" : String).data) ∧
        ToolProxy.call (envWith narrowServer) blockedInput =
          (Except.error ("Tool " ++ blockedInput.name ++
            " is blocked by allowTools for server " ++ blockedInput.serverId), [])) :=
  ⟨rfl, rfl, rfl, isToolAllowed_spec ("x") ["records.read"] (envWith narrowServer)
    blockedInput narrowServer rfl rfl rfl⟩

/-- Claim C10: with an empty configured allow-list no pattern matches
and the list does not contain `*`, so `isToolAllowed` returns false for
every name and the proxy rejects every invocation for that server with
the allow-list denial, before any catalog tool lookup or upstream
call. -/
theorem emptyAllowList_blocks (name : String) (env : ProxyEnv)
    (input : ExecuteToolInput) (server : ServerRecord)
    (hfind : env.servers.find? (fun row => row.id == input.serverId) = some server)
    (henabled : server.enabled = true)
    (hempty : server.allowTools = []) :
    isToolAllowed name [] = false ∧
      ToolProxy.call env input =
        (Except.error ("Tool " ++ input.name ++
          " is blocked by allowTools for server " ++ input.serverId), []) := by
  have hblocked : isToolAllowed input.name server.allowTools = false := by
    rw [hempty]; rfl
  refine ⟨rfl, ?_⟩
  unfold ToolProxy.call
  rw [hfind]
  simp [henabled, hblocked]

/-- Witness for `emptyAllowList_blocks` on the empty-allow-list
server. -/
theorem emptyAllowList_blocks_witness :
    (envWith emptyAllowServer).servers.find?
        (fun row => row.id == anyInput.serverId) = some emptyAllowServer ∧
      emptyAllowServer.enabled = true ∧
      emptyAllowServer.allowTools = [] ∧
      (isToolAllowed ("whatever.tool") [] = false ∧
        ToolProxy.call (envWith emptyAllowServer) anyInput =
          (Except.error ("Tool " ++ anyInput.name ++
            " is blocked by allowTools for server " ++ anyInput.serverId), [])) :=
  ⟨rfl, rfl, rfl, emptyAllowList_blocks ("whatever.tool") (envWith emptyAllowServer)
    anyInput emptyAllowServer rfl rfl rfl⟩

/-- Claim C3 counterexample: with `limit: 0` the JS falsy check makes
`clampLimit` return the default 30, not `clamp(0, 1, 100) = 1`, so a
two-tool catalog yields 2 rows where the claim allows at most 1. -/
theorem searchTools_limit_zero_counterexample :
    (searchTools twoToolDb limitZeroQuery).length = 2 ∧
      ¬ (searchTools twoToolDb limitZeroQuery).length ≤ 1 := by
  have h2 : (searchTools twoToolDb limitZeroQuery).length = 2 := by
    unfold searchTools
    simp only [List.length_map, List.length_take, List.length_mergeSort]
    rfl
  exact ⟨h2, by omega⟩

/-- Claim C3 (amended): `searchTools` returns at most
`clampLimit(limit)` rows, where a missing limit defaults to 30, a zero
limit is JS-falsy and also falls back to the default 30, and any other
integer `k` is clamped to `max 1 (min 100 k)`. -/
theorem searchTools_limit_clamped (db : CatalogDb) (q : SearchQuery) (k : Int)
    (hk : k ≠ 0) :
    (searchTools db q).length ≤ (clampLimit q.limit).toNat ∧
      clampLimit none = 30 ∧
      clampLimit (some 0) = 30 ∧
      clampLimit (some k) = max 1 (min 100 k) := by
  refine ⟨?_, rfl, rfl, by simp [clampLimit, hk]⟩
  unfold searchTools
  simp only [List.length_map, List.length_take, List.length_mergeSort]
  exact Nat.min_le_left _ _

/-- Witness for `searchTools_limit_clamped` on the two-tool catalog
with limit 5. -/
theorem searchTools_limit_clamped_witness :
    (5 : Int) ≠ 0 ∧
      ((searchTools twoToolDb { query := none, serverId := none, limit := some 5 }).length ≤
          (clampLimit (some 5)).toNat ∧
        clampLimit none = 30 ∧
        clampLimit (some 0) = 30 ∧
        clampLimit (some 5) = max 1 (min 100 5)) :=
  ⟨by decide,
    searchTools_limit_clamped twoToolDb { query := none, serverId := none, limit := some 5 }
      5 (by decide)⟩

/-- Helper: field-preservation of the connection effect. -/
theorem connectEffect_fields (h : ServerHealthState) (now : Nat) :
    (connectEffect h now).enabled = h.enabled ∧
      (connectEffect h now).totalCalls = h.totalCalls ∧
      (connectEffect h now).successfulCalls = h.successfulCalls ∧
      (connectEffect h now).failedCalls = h.failedCalls ∧
      (connectEffect h now).consecutiveFailures = h.consecutiveFailures := by
  unfold connectEffect
  split <;> simp

/-- Helper: through the attempt loop, `enabled` and `totalCalls` never
change, the success and failure counters grow by at most the number of
available attempts, a success result leaves a zero consecutive-failure
streak, and a failure result (of a loop that ran at least one attempt)
leaves a nonzero streak. -/
theorem runAttempts_spec (policy : StdioPolicy) (stdio : Bool)
    (outcomes : List AttemptOutcome) (h : ServerHealthState) :
    (runAttempts policy stdio outcomes h).2.enabled = h.enabled ∧
      (runAttempts policy stdio outcomes h).2.totalCalls = h.totalCalls ∧
      (runAttempts policy stdio outcomes h).2.successfulCalls +
          (runAttempts policy stdio outcomes h).2.failedCalls ≤
        h.successfulCalls + h.failedCalls + outcomes.length ∧
      (resultIsOk (runAttempts policy stdio outcomes h).1 = true →
        (runAttempts policy stdio outcomes h).2.consecutiveFailures = 0) ∧
      (outcomes ≠ [] → resultIsOk (runAttempts policy stdio outcomes h).1 = false →
        (runAttempts policy stdio outcomes h).2.consecutiveFailures ≠ 0) := by
  induction outcomes generalizing h with
  | nil =>
    refine ⟨rfl, rfl, by simp [runAttempts], ?_, ?_⟩
    · intro hok
      simp [runAttempts, resultIsOk] at hok
    · intro hne
      exact absurd rfl hne
  | cons o rest ih =>
    cases o with
    | success now =>
      obtain ⟨c1, c2, c3, c4, c5⟩ := connectEffect_fields h now
      refine ⟨?_, ?_, ?_, ?_, ?_⟩
      · simp [runAttempts, markSuccess, c1]
      · simp [runAttempts, markSuccess, c2]
      · simp [runAttempts, markSuccess, c3, c4]
        omega
      · intro _
        simp [runAttempts, markSuccess]
      · intro _ herr
        simp [runAttempts, resultIsOk] at herr
    | failure msg now =>
      simp only [runAttempts]
      split
      · rename_i hb
        have hne : rest ≠ [] := by
          intro hrest
          rw [hrest] at hb
          simp at hb
        obtain ⟨ih1, ih2, ih3, ih4, ih5⟩ := ih
          { markFailure h msg now with
            connected := false
            nextRetryAtMs := some (now + computeBackoffMs policy
              ({ markFailure h msg now with connected := false }).consecutiveFailures)
            restarts := ({ markFailure h msg now with connected := false }).restarts + 1 }
        refine ⟨?_, ?_, ?_, ?_, ?_⟩
        · rw [ih1]; simp [markFailure]
        · rw [ih2]; simp [markFailure]
        · refine le_trans ih3 ?_
          simp [markFailure]
          omega
        · exact ih4
        · intro _ herr
          exact ih5 hne herr
      · refine ⟨by simp [markFailure], by simp [markFailure], ?_, ?_, ?_⟩
        · simp [markFailure]
          omega
        · intro hok
          simp [resultIsOk] at hok
        · intro _ _
          simp [markFailure]

/-- Helper: on an enabled server, an operation bumps `totalCalls` once
and then runs the attempt loop. -/
theorem withServerOperation_enabled (policy : StdioPolicy) (stdio : Bool)
    (outcomes : List AttemptOutcome) (h : ServerHealthState) (hen : h.enabled = true) :
    withServerOperation policy stdio outcomes h =
      runAttempts policy stdio outcomes { h with totalCalls := h.totalCalls + 1 } := by
  unfold withServerOperation
  simp [hen]

/-- Helper: `maxAttempts` is at least 1. -/
theorem maxAttemptsFor_pos (policy : StdioPolicy) (stdio : Bool) :
    1 ≤ maxAttemptsFor policy stdio := by
  unfold maxAttemptsFor
  split <;> omega

/-- Helper: invariant of an operation sequence on an enabled server:
the final state stays enabled, `totalCalls` counts the operations,
`successfulCalls + failedCalls` is bounded by `maxAttempts` per
operation, and the final consecutive-failure streak is zero exactly when
the last operation succeeded. -/
theorem runOps_spec (policy : StdioPolicy) (stdio : Bool)
    (ops : List (List AttemptOutcome)) (h : ServerHealthState)
    (hen : h.enabled = true)
    (hlen : ∀ op ∈ ops, op.length = maxAttemptsFor policy stdio) :
    (runOps policy stdio ops h).2.enabled = true ∧
      (runOps policy stdio ops h).2.totalCalls = h.totalCalls + ops.length ∧
      (runOps policy stdio ops h).2.successfulCalls +
          (runOps policy stdio ops h).2.failedCalls ≤
        h.successfulCalls + h.failedCalls + maxAttemptsFor policy stdio * ops.length ∧
      (runOps policy stdio ops h).1.length = ops.length ∧
      ∀ r, (runOps policy stdio ops h).1.getLast? = some r →
        ((runOps policy stdio ops h).2.consecutiveFailures = 0 ↔ resultIsOk r = true) := by
  induction ops generalizing h with
  | nil =>
    refine ⟨hen, by simp [runOps], by simp [runOps], by simp [runOps], ?_⟩
    intro r hr
    simp [runOps] at hr
  | cons op rest ih =>
    have hoplen : op.length = maxAttemptsFor policy stdio := hlen op (by simp)
    have hrestlen : ∀ o ∈ rest, o.length = maxAttemptsFor policy stdio :=
      fun o ho => hlen o (by simp [ho])
    have hopne : op ≠ [] := by
      intro hnil
      rw [hnil] at hoplen
      have := maxAttemptsFor_pos policy stdio
      simp at hoplen
      omega
    have hstep := withServerOperation_enabled policy stdio op h hen
    obtain ⟨a1, a2, a3, a4, a5⟩ :=
      runAttempts_spec policy stdio op { h with totalCalls := h.totalCalls + 1 }
    simp only [runOps, hstep]
    obtain ⟨b1, b2, b3, b4, b5⟩ := ih
      (runAttempts policy stdio op { h with totalCalls := h.totalCalls + 1 }).2
      (by rw [a1]; exact hen)
      hrestlen
    refine ⟨b1, ?_, ?_, ?_, ?_⟩
    · rw [b2, a2]
      simp only [List.length_cons]
      omega
    · refine le_trans b3 ?_
      have a3h : (runAttempts policy stdio op
            { h with totalCalls := h.totalCalls + 1 }).2.successfulCalls +
          (runAttempts policy stdio op
            { h with totalCalls := h.totalCalls + 1 }).2.failedCalls ≤
          h.successfulCalls + h.failedCalls + maxAttemptsFor policy stdio := by
        refine le_trans a3 ?_
        simp [hoplen]
      rw [List.length_cons, Nat.mul_succ]
      omega
    · simp [b4]
    · intro r hr
      rcases List.eq_nil_or_concat rest with hrest | ⟨_, _, _⟩
      · subst hrest
        simp [runOps] at hr ⊢
        subst hr
        constructor
        · intro hcf
          by_contra hok
          have hokf : resultIsOk (runAttempts policy stdio op
              { h with totalCalls := h.totalCalls + 1 }).1 = false := by
            cases hres : resultIsOk (runAttempts policy stdio op
                { h with totalCalls := h.totalCalls + 1 }).1
            · rfl
            · exact absurd hres hok
          exact a5 hopne hokf hcf
        · intro hok
          exact a4 hok
      · have hrestne : rest ≠ [] := by
          rename_i l x hcat
          subst hcat
          simp
        have htailne : (runOps policy stdio rest
            (runAttempts policy stdio op { h with totalCalls := h.totalCalls + 1 }).2).1 ≠ [] := by
          intro hnil
          rw [hnil] at b4
          simp at b4
          exact hrestne (List.eq_nil_of_length_eq_zero b4.symm)
        rcases List.exists_cons_of_ne_nil htailne with ⟨x, xs, hx⟩
        rw [hx] at hr
        rw [List.getLast?_cons_cons] at hr
        refine b5 r ?_
        rw [hx]
        exact hr

/-- Claim C2 counterexample: one stdio operation with one retry fails on
both attempts: `failedCalls` counts each attempt (2) while `totalCalls`
counts the operation once, so `successfulCalls + failedCalls ≤
totalCalls` is violated. -/
theorem health_counters_counterexample :
    (runOps ⟨1, 10, 20⟩ true [failTwiceOp] (createInitialHealth true)).2.successfulCalls = 0 ∧
      (runOps ⟨1, 10, 20⟩ true [failTwiceOp] (createInitialHealth true)).2.failedCalls = 2 ∧
      (runOps ⟨1, 10, 20⟩ true [failTwiceOp] (createInitialHealth true)).2.totalCalls = 1 ∧
      failTwiceOp.length = maxAttemptsFor ⟨1, 10, 20⟩ true ∧
      ¬ ((runOps ⟨1, 10, 20⟩ true [failTwiceOp] (createInitialHealth true)).2.successfulCalls +
            (runOps ⟨1, 10, 20⟩ true [failTwiceOp] (createInitialHealth true)).2.failedCalls ≤
          (runOps ⟨1, 10, 20⟩ true [failTwiceOp] (createInitialHealth true)).2.totalCalls) :=
  ⟨rfl, rfl, rfl, rfl, by decide⟩

/-- Claim C2 (amended): for every operation sequence on an enabled
server (each operation carrying one outcome per available attempt),
`successfulCalls + failedCalls ≤ maxAttempts · totalCalls` — the
failure counter counts attempts, so for HTTP transports
(`maxAttempts = 1`) the claimed `successful + failed ≤ total` holds —
and `consecutiveFailures = 0` iff the most recently completed call
succeeded. -/
theorem health_counters_invariant (policy : StdioPolicy) (stdio : Bool)
    (ops : List (List AttemptOutcome)) (r : Except String Unit)
    (hlen : ∀ op ∈ ops, op.length = maxAttemptsFor policy stdio)
    (hlast : (runOps policy stdio ops (createInitialHealth true)).1.getLast? = some r) :
    (runOps policy stdio ops (createInitialHealth true)).2.successfulCalls +
        (runOps policy stdio ops (createInitialHealth true)).2.failedCalls ≤
      maxAttemptsFor policy stdio *
        (runOps policy stdio ops (createInitialHealth true)).2.totalCalls ∧
      ((runOps policy stdio ops (createInitialHealth true)).2.consecutiveFailures = 0 ↔
        resultIsOk r = true) := by
  obtain ⟨e1, e2, e3, e4, e5⟩ := runOps_spec policy stdio ops (createInitialHealth true) rfl hlen
  refine ⟨?_, e5 r hlast⟩
  refine le_trans e3 ?_
  rw [e2]
  simp [createInitialHealth]

/-- Witness for `health_counters_invariant`: a single HTTP operation
that succeeds. -/
theorem health_counters_invariant_witness :
    (∀ op ∈ [[AttemptOutcome.success 5]], op.length = maxAttemptsFor ⟨3, 250, 4000⟩ false) ∧
      (runOps ⟨3, 250, 4000⟩ false [[AttemptOutcome.success 5]]
          (createInitialHealth true)).1.getLast? = some (Except.ok ()) ∧
      ((runOps ⟨3, 250, 4000⟩ false [[AttemptOutcome.success 5]]
            (createInitialHealth true)).2.successfulCalls +
          (runOps ⟨3, 250, 4000⟩ false [[AttemptOutcome.success 5]]
            (createInitialHealth true)).2.failedCalls ≤
        maxAttemptsFor ⟨3, 250, 4000⟩ false *
          (runOps ⟨3, 250, 4000⟩ false [[AttemptOutcome.success 5]]
            (createInitialHealth true)).2.totalCalls ∧
        ((runOps ⟨3, 250, 4000⟩ false [[AttemptOutcome.success 5]]
            (createInitialHealth true)).2.consecutiveFailures = 0 ↔
          resultIsOk (Except.ok () : Except String Unit) = true)) :=
  ⟨by decide, rfl,
    health_counters_invariant ⟨3, 250, 4000⟩ false [[AttemptOutcome.success 5]]
      (Except.ok ()) (by decide) rfl⟩

/-- Helper: `find?` over a concatenation tries the left part first. -/
theorem find?_append_eq {α : Type} (p : α → Bool) (a b : List α) :
    (a ++ b).find? p = match a.find? p with
      | some x => some x
      | none => b.find? p := by
  induction a with
  | nil => simp
  | cons x xs ih =>
    by_cases hp : p x = true
    · rw [List.cons_append, List.find?_cons_of_pos _ hp, List.find?_cons_of_pos _ hp]
    · rw [List.cons_append, List.find?_cons_of_neg _ hp, List.find?_cons_of_neg _ hp]
      exact ih

/-- Helper: inserting a batch of rows whose keys collide neither with
the existing rows nor with each other appends them in order. -/
theorem insertToolRows_eq_append (rows l : List ToolRow)
    (hno : ∀ r ∈ l, rows.any (fun r0 => r0.server_id == r.server_id &&
      r0.tool_name == r.tool_name) = false)
    (hpair : l.Pairwise (fun a b =>
      ¬(a.server_id = b.server_id ∧ a.tool_name = b.tool_name))) :
    insertToolRows rows l = some (rows ++ l) := by
  induction l generalizing rows with
  | nil => simp [insertToolRows]
  | cons r rest ih =>
    have hr := hno r (by simp)
    have hstep : insertToolRow rows r = some (rows ++ [r]) := by
      unfold insertToolRow
      rw [hr]
      simp
    have hhead := (List.pairwise_cons.mp hpair).1
    have htail := (List.pairwise_cons.mp hpair).2
    have hno2 : ∀ x ∈ rest, (rows ++ [r]).any (fun r0 => r0.server_id == x.server_id &&
        r0.tool_name == x.tool_name) = false := by
      intro x hx
      rw [List.any_append]
      have h1 := hno x (by simp [hx])
      have h2 : (r.server_id == x.server_id && r.tool_name == x.tool_name) = false := by
        cases hsid : r.server_id == x.server_id
        · simp
        · cases htn : r.tool_name == x.tool_name
          · simp
          · exact absurd ⟨eq_of_beq hsid, eq_of_beq htn⟩ (hhead x hx)
      simp [h1, h2]
    have := ih (rows ++ [r]) hno2 htail
    simp only [insertToolRows, hstep]
    rw [this]
    simp

/-- Helper: a freshly inserted row read back through `mapToolRecord` is
the normalized record itself with the replacement's snapshot hash,
provided the title is not the empty string (which the JS truthiness test
in `mapToolRecord` would read back as `null`). -/
theorem mapToolRecord_toolRowOf (hash : String) (t : NormalizedToolRecord)
    (ht : t.title ≠ some "") :
    mapToolRecord (toolRowOf hash t) = recordOf hash t := by
  unfold mapToolRecord toolRowOf recordOf
  cases htt : t.title with
  | none =>
    cases t.outputSchema <;> cases t.annotations <;> simp [parseJsonObject]
  | some s =>
    have hs : ¬ s = "" := by
      intro h
      rw [h] at htt
      exact ht htt
    cases t.outputSchema <;> cases t.annotations <;> simp [parseJsonObject, hs]

/-- Helper: among the freshly inserted rows, the lookup key of a member
tool finds exactly that tool's row. -/
theorem find?_toolRows_mem (hash s : String) (T : List NormalizedToolRecord)
    (hsid : ∀ t ∈ T, t.serverId = s)
    (hnodup : (T.map (fun t => t.toolName)).Nodup)
    (t : NormalizedToolRecord) (ht : t ∈ T) :
    (T.map (toolRowOf hash)).find?
        (fun r => r.server_id == s && r.tool_name == t.toolName) =
      some (toolRowOf hash t) := by
  induction T with
  | nil => cases ht
  | cons u rest ih =>
    have hnodup2 : (u.toolName :: rest.map (fun t => t.toolName)).Nodup := by
      simpa using hnodup
    rcases List.mem_cons.mp ht with heq | hmem
    · subst heq
      rw [List.map_cons, List.find?_cons_of_pos]
      simp [toolRowOf, hsid t (by simp)]
    · have hne : u.toolName ≠ t.toolName := by
        intro he
        have hmm : t.toolName ∈ rest.map (fun t => t.toolName) :=
          List.mem_map_of_mem _ hmem
        rw [← he] at hmm
        exact (List.nodup_cons.mp hnodup2).1 hmm
      rw [List.map_cons, List.find?_cons_of_neg]
      · exact ih (fun x hx => hsid x (by simp [hx]))
          (by simpa using (List.nodup_cons.mp hnodup2).2) hmem
      · simp [toolRowOf, hne]

/-- Helper: a name outside the inserted set finds no freshly inserted
row. -/
theorem find?_toolRows_not_mem (hash s x : String) (T : List NormalizedToolRecord)
    (hx : x ∉ T.map (fun t => t.toolName)) :
    (T.map (toolRowOf hash)).find?
      (fun r => r.server_id == s && r.tool_name == x) = none := by
  rw [List.find?_eq_none]
  intro r hr hp
  rcases List.mem_map.mp hr with ⟨t, htmem, rfl⟩
  simp [toolRowOf] at hp
  exact hx (by rw [← hp.2]; exact List.mem_map_of_mem _ htmem)

/-- Helper: after the delete step no row of the replaced server
remains. -/
theorem find?_filter_deleted (s x : String) (rows : List ToolRow) :
    (rows.filter (fun r => !(r.server_id == s))).find?
      (fun r => r.server_id == s && r.tool_name == x) = none := by
  rw [List.find?_eq_none]
  intro r hr hp
  have hmem := (List.mem_filter.mp hr).2
  simp at hmem hp
  exact hmem hp.1

/-- Helper: the delete step is invisible to lookups for a different
server. -/
theorem find?_filter_other (s s2 y : String) (hne : s2 ≠ s) (rows : List ToolRow) :
    (rows.filter (fun r => !(r.server_id == s))).find?
        (fun r => r.server_id == s2 && r.tool_name == y) =
      rows.find? (fun r => r.server_id == s2 && r.tool_name == y) := by
  induction rows with
  | nil => rfl
  | cons r rest ih =>
    by_cases hrs : r.server_id = s
    · rw [List.filter_cons_of_neg (by simp [hrs])]
      have hps : (r.server_id == s2) = false := by
        rw [hrs]
        exact beq_eq_false_iff_ne.mpr (Ne.symm hne)
      rw [List.find?_cons_of_neg _ (by simp [hps])]
      exact ih
    · rw [List.filter_cons_of_pos (by simp [hrs])]
      by_cases hp : (r.server_id == s2 && r.tool_name == y) = true
      · simp only [List.find?_cons, hp, cond_true]
      · have hpf : (r.server_id == s2 && r.tool_name == y) = false := by
          simpa using hp
        simp only [List.find?_cons, hpf, cond_false]
        exact ih

/-- Claim C5 counterexample: the insert statement binds
`tool.serverId`, not the `serverId` argument, so replacing server `a`
with a set containing a record for server `other` leaves
`getTool("a", t.toolName)` at `null` instead of the claimed `t`. -/
theorem replaceServerTools_counterexample :
    mismatchedTool ∈ [mismatchedTool] ∧
      replaceServerTools ⟨[]⟩ ("a") ("h") ("p") [mismatchedTool] =
        some ⟨[toolRowOf ("h") mismatchedTool]⟩ ∧
      getTool ⟨[toolRowOf ("h") mismatchedTool]⟩ ("a") mismatchedTool.toolName = none :=
  ⟨by simp, rfl, rfl⟩

/-- Claim C5 (amended): when every record of the new set names the
replaced server, the tool names are pairwise distinct, and no title is
the empty string, then after `replaceServerTools(s, h, p, T)` succeeds
`getTool(s, t.toolName)` is `t` with snapshot hash `h` for every
`t ∈ T`, `getTool(s, x)` is `null` for every other name `x`, and tool
rows of other servers are untouched. -/
theorem replaceServerTools_getTool_spec (db : CatalogDb) (s hash path : String)
    (T : List NormalizedToolRecord)
    (hsid : ∀ t ∈ T, t.serverId = s)
    (hnodup : (T.map (fun t => t.toolName)).Nodup)
    (htitle : ∀ t ∈ T, t.title ≠ some "") :
    ∃ db2, replaceServerTools db s hash path T = some db2 ∧
      (∀ t ∈ T, getTool db2 s t.toolName = some (recordOf hash t)) ∧
      (∀ x, x ∉ T.map (fun t => t.toolName) → getTool db2 s x = none) ∧
      (∀ s2 y, s2 ≠ s → getTool db2 s2 y = getTool db s2 y) := by
  have hins : insertToolRows (db.tools.filter (fun r => !(r.server_id == s)))
      (T.map (toolRowOf hash)) =
      some (db.tools.filter (fun r => !(r.server_id == s)) ++ T.map (toolRowOf hash)) := by
    apply insertToolRows_eq_append
    · intro r hrmem
      rcases List.mem_map.mp hrmem with ⟨t, htmem, rfl⟩
      rw [List.any_eq_false]
      intro r0 hr0
      have h0 := (List.mem_filter.mp hr0).2
      simp [toolRowOf, hsid t htmem] at h0 ⊢
      intro hc
      exact absurd hc h0
    · rw [List.pairwise_map]
      have hnames : T.Pairwise (fun a b => a.toolName ≠ b.toolName) :=
        List.pairwise_map.mp hnodup
      refine hnames.imp ?_
      intro a b hab hc
      exact hab hc.2
  refine ⟨⟨db.tools.filter (fun r => !(r.server_id == s)) ++ T.map (toolRowOf hash)⟩,
    ?_, ?_, ?_, ?_⟩
  · unfold replaceServerTools
    simp only [hins]
  · intro t htmem
    unfold getTool
    rw [find?_append_eq, find?_filter_deleted]
    simp only [find?_toolRows_mem hash s T hsid hnodup t htmem, Option.map_some']
    exact congrArg some (mapToolRecord_toolRowOf hash t (htitle t htmem))
  · intro x hx
    unfold getTool
    rw [find?_append_eq, find?_filter_deleted]
    simp only [find?_toolRows_not_mem hash s x T hx, Option.map_none']
  · intro s2 y hne
    unfold getTool
    rw [find?_append_eq, find?_filter_other s s2 y hne]
    cases hdb : db.tools.find? (fun r => r.server_id == s2 && r.tool_name == y) with
    | some r => simp
    | none =>
      have hmapped : (T.map (toolRowOf hash)).find?
          (fun r => r.server_id == s2 && r.tool_name == y) = none := by
        rw [List.find?_eq_none]
        intro r hr hp
        rcases List.mem_map.mp hr with ⟨t, htmem, rfl⟩
        simp [toolRowOf, hsid t htmem] at hp
        exact hne hp.1.symm
      simp [hmapped]

/-- Witness for `replaceServerTools_getTool_spec`: replacing server
`s1` of the two-tool catalog with a single well-formed record. -/
theorem replaceServerTools_getTool_spec_witness :
    (∀ t ∈ [{ mismatchedTool with serverId := "s1", title := some "Tool One" }],
        NormalizedToolRecord.serverId t = "s1") ∧
      ([{ mismatchedTool with serverId := "s1", title := some "Tool One" }].map
        (fun t => t.toolName)).Nodup ∧
      (∀ t ∈ [{ mismatchedTool with serverId := "s1", title := some "Tool One" }],
        NormalizedToolRecord.title t ≠ some "") ∧
      ∃ db2, replaceServerTools twoToolDb ("s1") ("h9") ("p9")
          [{ mismatchedTool with serverId := "s1", title := some "Tool One" }] = some db2 ∧
        (∀ t ∈ [{ mismatchedTool with serverId := "s1", title := some "Tool One" }],
          getTool db2 ("s1") t.toolName = some (recordOf ("h9") t)) ∧
        (∀ x, x ∉ [{ mismatchedTool with serverId := "s1", title := some "Tool One" }].map
            (fun t => t.toolName) → getTool db2 ("s1") x = none) ∧
        (∀ s2 y, s2 ≠ "s1" → getTool db2 s2 y = getTool twoToolDb s2 y) :=
  ⟨fun t ht => by simp at ht; rw [ht], by simp,
    fun t ht => by simp at ht; rw [ht]; simp,
    replaceServerTools_getTool_spec twoToolDb ("s1") ("h9") ("p9") _
      (fun t ht => by simp at ht; rw [ht])
      (by simp)
      (fun t ht => by simp at ht; rw [ht]; simp)⟩

/-- Helper: a number below `10 ^ (k+1)` renders to at most `k + 1`
decimal digits, whatever the fuel. -/
theorem natDecimalAux_length (fuel : Nat) : ∀ (k n : Nat) (acc : List Char),
    n < 10 ^ (k + 1) → (natDecimalAux fuel n acc).length ≤ acc.length + (k + 1) := by
  induction fuel with
  | zero =>
    intro k n acc _
    simp [natDecimalAux]
  | succ fuel ih =>
    intro k n acc hn
    by_cases h10 : n < 10
    · simp [natDecimalAux, h10]
    · simp only [natDecimalAux, if_neg h10]
      have hk : 1 ≤ k := by
        by_contra hk0
        push_neg at hk0
        interval_cases k
        norm_num at hn
        omega
      have hdiv : n / 10 < 10 ^ k := by
        rw [Nat.div_lt_iff_lt_mul (by norm_num)]
        have hpow : 10 ^ (k + 1) = 10 ^ k * 10 := by ring
        omega
      have hrec := ih (k - 1) (n / 10) (digitChar (n % 10) :: acc) (by
        have hkk : k - 1 + 1 = k := by omega
        rw [hkk]
        exact hdiv)
      simp at hrec
      omega

/-- Helper: digit-count bound for `natDecimal`. -/
theorem natDecimal_length (k n : Nat) (hn : n < 10 ^ (k + 1)) :
    (natDecimal n).length ≤ k + 1 := by
  have := natDecimalAux_length n k n [] hn
  simpa [natDecimal] using this

/-- Helper: for any string a JS engine can hold (shorter than `10^9`
code units; V8 caps strings near `5.4 * 10^8`), the truncated text stays
within the 4000-character cap. -/
theorem truncateString_length_le (value : List Char) (hlen : value.length ≤ 999999999) :
    (truncateString value MAX_STRING_CHARS).length ≤ MAX_STRING_CHARS := by
  unfold truncateString MAX_STRING_CHARS
  by_cases hle : value.length ≤ 4000
  · simp [hle]
  · rw [if_neg hle]
    have hd : (natDecimal value.length).length ≤ 9 := by
      refine natDecimal_length 8 value.length ?_
      norm_num
      omega
    have hmin : (value.take (4000 - 21)).length = 3979 := by
      rw [List.length_take]
      omega
    simp only [List.length_append, hmin, List.length_cons, List.length_nil]
    omega

/-- Helper: a truncated string carries the literal `truncated` and the
decimal rendering of the original length in its suffix. -/
theorem truncateString_suffix (value : List Char) (hgt : MAX_STRING_CHARS < value.length) :
    ("truncated").data <:+: truncateString value MAX_STRING_CHARS ∧
      natDecimal value.length <:+: truncateString value MAX_STRING_CHARS := by
  unfold truncateString
  rw [if_neg (by omega)]
  constructor
  · refine ⟨value.take (MAX_STRING_CHARS - 21) ++ [ '[' ],
      (':' :: natDecimal value.length) ++ ("]").data, ?_⟩
    have hsplit : ("[truncated:").data = [ '[' ] ++ ("truncated").data ++ [ ':' ] := rfl
    rw [hsplit]
    simp [List.append_assoc]
  · refine ⟨value.take (MAX_STRING_CHARS - 21) ++ ("[truncated:").data, ("]").data, ?_⟩
    simp [List.append_assoc]

/-- Helper: normalizing a `text` content item truncates its text to the
4000-character cap. -/
theorem normalizeContentItem_text (itemFields : List (String × JsVal)) (t : List Char)
    (htype : getField itemFields ("type") = some (JsVal.str (("text").data)))
    (htext : getField itemFields ("text") = some (JsVal.str t)) :
    normalizeContentItem (JsVal.obj itemFields) =
      JsVal.obj [("type", JsVal.str (("text").data)),
        ("text", JsVal.str (truncateString t MAX_STRING_CHARS))] := by
  unfold normalizeContentItem
  simp [htype, getFieldD, htext, asString]

/-- Helper: replacing an existing key makes it read back as the new
value. -/
theorem getField_map_replace (fields : List (String × JsVal)) (key : String) (v : JsVal)
    (hany : fields.any (fun p => p.1 == key) = true) :
    getField (fields.map (fun p => if p.1 = key then (key, v) else p)) key = some v := by
  induction fields with
  | nil => simp at hany
  | cons p rest ih =>
    obtain ⟨pk, pv⟩ := p
    simp only [List.map_cons]
    by_cases hk : pk = key
    · subst hk
      rw [show (if (pk, pv).1 = pk then (pk, v) else (pk, pv)) = (pk, v) from
        if_pos rfl]
      simp [getField]
    · rw [show (if (pk, pv).1 = key then (key, v) else (pk, pv)) = (pk, pv) from
        if_neg hk]
      have hrest : rest.any (fun p => p.1 == key) = true := by
        simp [hk] at hany
        simpa using hany
      simp only [getField]
      rw [if_neg hk]
      exact ih hrest

/-- Helper: appending a fresh key makes it read back as the new value. -/
theorem getField_append_not_found (fields : List (String × JsVal)) (key : String)
    (v : JsVal) (hany : fields.any (fun p => p.1 == key) = false) :
    getField (fields ++ [(key, v)]) key = some v := by
  induction fields with
  | nil => simp [getField]
  | cons p rest ih =>
    obtain ⟨pk, pv⟩ := p
    simp only [List.any_cons, Bool.or_eq_false_iff, beq_eq_false_iff_ne] at hany
    simp only [List.cons_append, getField]
    rw [if_neg hany.1]
    exact ih hany.2

/-- Helper: JS property assignment reads back the assigned value. -/
theorem getField_setField_same (fields : List (String × JsVal)) (key : String)
    (v : JsVal) : getField (setField fields key v) key = some v := by
  unfold setField
  split
  · rename_i hany
    exact getField_map_replace fields key v hany
  · rename_i hany
    refine getField_append_not_found fields key v ?_
    cases hb : fields.any (fun p => p.1 == key)
    · rfl
    · exact absurd hb hany

/-- Helper: replacing one key leaves reads of other keys unchanged. -/
theorem getField_map_replace_other (fields : List (String × JsVal))
    (key key2 : String) (v : JsVal) (hne : key2 ≠ key) :
    getField (fields.map (fun p => if p.1 = key then (key, v) else p)) key2 =
      getField fields key2 := by
  induction fields with
  | nil => rfl
  | cons p rest ih =>
    obtain ⟨pk, pv⟩ := p
    simp only [List.map_cons]
    by_cases hk : pk = key
    · subst hk
      rw [show (if (pk, pv).1 = pk then (pk, v) else (pk, pv)) = (pk, v) from
        if_pos rfl]
      simp only [getField]
      rw [if_neg (fun h => hne h.symm), if_neg (fun h => hne h.symm)]
      exact ih
    · rw [show (if (pk, pv).1 = key then (key, v) else (pk, pv)) = (pk, pv) from
        if_neg hk]
      by_cases hk2 : pk = key2
      · simp only [getField]
        rw [if_pos hk2, if_pos hk2]
      · simp only [getField]
        rw [if_neg hk2, if_neg hk2]
        exact ih

/-- Helper: appending one key leaves reads of other keys unchanged. -/
theorem getField_append_single_other (fields : List (String × JsVal))
    (key key2 : String) (v : JsVal) (hne : key2 ≠ key) :
    getField (fields ++ [(key, v)]) key2 = getField fields key2 := by
  induction fields with
  | nil =>
    simp only [List.nil_append, getField]
    rw [if_neg (fun h => hne h.symm)]
  | cons p rest ih =>
    obtain ⟨pk, pv⟩ := p
    simp only [List.cons_append, getField]
    by_cases hk2 : pk = key2
    · rw [if_pos hk2, if_pos hk2]
    · rw [if_neg hk2, if_neg hk2]
      exact ih

/-- Helper: JS property assignment leaves other keys unchanged. -/
theorem getField_setField_other (fields : List (String × JsVal))
    (key key2 : String) (v : JsVal) (hne : key2 ≠ key) :
    getField (setField fields key v) key2 = getField fields key2 := by
  unfold setField
  split
  · exact getField_map_replace_other fields key key2 v hne
  · exact getField_append_single_other fields key key2 v hne

/-- Claim C9: for every execute result with a `content` array,
normalization caps `content` at 40 items and, when the original array
was longer, sets `contentTruncated = true` and `contentOriginalLength`
to the original length; every `text` item is rewritten with its text
truncated to at most 4000 characters (for any string a JS engine can
hold — engines cap string length below `10^9` code units), with a
suffix containing the literal `truncated` and the decimal original
length; in particular a 10000-character text item yields output text
shorter than 10000 characters containing `truncated`. -/
theorem normalizeExecuteOutput_spec (fields : List (String × JsVal))
    (items : List JsVal)
    (hcontent : getField fields ("content") = some (JsVal.arr items)) :
    (∃ outFields,
      normalizeExecuteOutput (JsVal.obj fields) = JsVal.obj outFields ∧
      getField outFields ("content") =
        some (JsVal.arr ((items.take MAX_ARRAY_ITEMS).map normalizeContentItem)) ∧
      ((items.take MAX_ARRAY_ITEMS).map normalizeContentItem).length ≤ MAX_ARRAY_ITEMS ∧
      (MAX_ARRAY_ITEMS < items.length →
        getField outFields ("contentTruncated") = some (JsVal.bool true) ∧
        getField outFields ("contentOriginalLength") =
          some (JsVal.num (Int.ofNat items.length)))) ∧
    (∀ (itemFields : List (String × JsVal)) (t : List Char),
      getField itemFields ("type") = some (JsVal.str (("text").data)) →
      getField itemFields ("text") = some (JsVal.str t) →
      normalizeContentItem (JsVal.obj itemFields) =
        JsVal.obj [("type", JsVal.str (("text").data)),
          ("text", JsVal.str (truncateString t MAX_STRING_CHARS))] ∧
      (t.length ≤ 999999999 →
        (truncateString t MAX_STRING_CHARS).length ≤ MAX_STRING_CHARS) ∧
      (MAX_STRING_CHARS < t.length →
        ("truncated").data <:+: truncateString t MAX_STRING_CHARS ∧
        natDecimal t.length <:+: truncateString t MAX_STRING_CHARS)) ∧
    ((truncateString (List.replicate 10000 'x') MAX_STRING_CHARS).length < 10000 ∧
      ("truncated").data <:+: truncateString (List.replicate 10000 'x') MAX_STRING_CHARS) := by
  refine ⟨?_, ?_, ?_⟩
  · simp only [normalizeExecuteOutput, hcontent]
    refine ⟨_, rfl, ?_, ?_, ?_⟩
    · by_cases hsc : hasField fields ("structuredContent") = true
      · rw [if_pos hsc, getField_setField_other _ _ _ _ (by decide)]
        by_cases hcap : MAX_ARRAY_ITEMS < items.length
        · rw [if_pos hcap, getField_setField_other _ _ _ _ (by decide),
            getField_setField_other _ _ _ _ (by decide), getField_setField_same]
        · rw [if_neg hcap, getField_setField_same]
      · rw [if_neg hsc]
        by_cases hcap : MAX_ARRAY_ITEMS < items.length
        · rw [if_pos hcap, getField_setField_other _ _ _ _ (by decide),
            getField_setField_other _ _ _ _ (by decide), getField_setField_same]
        · rw [if_neg hcap, getField_setField_same]
    · simp only [List.length_map, List.length_take]
      exact Nat.min_le_left _ _
    · intro hgt
      by_cases hsc : hasField fields ("structuredContent") = true
      · rw [if_pos hsc, getField_setField_other _ _ _ _ (by decide),
          getField_setField_other _ _ _ _ (by decide), if_pos hgt]
        exact ⟨by rw [getField_setField_other _ _ _ _ (by decide), getField_setField_same],
          by rw [getField_setField_same]⟩
      · rw [if_neg hsc, if_pos hgt]
        exact ⟨by rw [getField_setField_other _ _ _ _ (by decide), getField_setField_same],
          by rw [getField_setField_same]⟩
  · intro itemFields t htype htext
    refine ⟨normalizeContentItem_text itemFields t htype htext, ?_, ?_⟩
    · intro hlen
      exact truncateString_length_le t hlen
    · intro hgt
      exact truncateString_suffix t hgt
  · constructor
    · have hlen : (List.replicate 10000 'x').length = 10000 := List.length_replicate _ _
      have h5 : (natDecimal 10000).length = 5 := rfl
      unfold truncateString MAX_STRING_CHARS
      rw [if_neg (by rw [hlen]; norm_num)]
      simp only [List.length_append, List.length_take, hlen, h5,
        List.length_cons, List.length_nil]
      omega
    · refine (truncateString_suffix (List.replicate 10000 'x') ?_).1
      rw [List.length_replicate]
      norm_num [MAX_STRING_CHARS]

/-- Witness for `normalizeExecuteOutput_spec` on a result whose content
holds one 10000-character text item. -/
theorem normalizeExecuteOutput_spec_witness :
    getField longTextResultFields ("content") =
        some (JsVal.arr [JsVal.obj longTextItemFields]) ∧
      ((∃ outFields,
        normalizeExecuteOutput (JsVal.obj longTextResultFields) = JsVal.obj outFields ∧
        getField outFields ("content") =
          some (JsVal.arr (([JsVal.obj longTextItemFields].take MAX_ARRAY_ITEMS).map
            normalizeContentItem)) ∧
        (([JsVal.obj longTextItemFields].take MAX_ARRAY_ITEMS).map
          normalizeContentItem).length ≤ MAX_ARRAY_ITEMS ∧
        (MAX_ARRAY_ITEMS < [JsVal.obj longTextItemFields].length →
          getField outFields ("contentTruncated") = some (JsVal.bool true) ∧
          getField outFields ("contentOriginalLength") =
            some (JsVal.num (Int.ofNat [JsVal.obj longTextItemFields].length)))) ∧
      (∀ (itemFields : List (String × JsVal)) (t : List Char),
        getField itemFields ("type") = some (JsVal.str (("text").data)) →
        getField itemFields ("text") = some (JsVal.str t) →
        normalizeContentItem (JsVal.obj itemFields) =
          JsVal.obj [("type", JsVal.str (("text").data)),
            ("text", JsVal.str (truncateString t MAX_STRING_CHARS))] ∧
        (t.length ≤ 999999999 →
          (truncateString t MAX_STRING_CHARS).length ≤ MAX_STRING_CHARS) ∧
        (MAX_STRING_CHARS < t.length →
          ("truncated").data <:+: truncateString t MAX_STRING_CHARS ∧
          natDecimal t.length <:+: truncateString t MAX_STRING_CHARS)) ∧
      ((truncateString (List.replicate 10000 'x') MAX_STRING_CHARS).length < 10000 ∧
        ("truncated").data <:+:
          truncateString (List.replicate 10000 'x') MAX_STRING_CHARS)) :=
  ⟨rfl, normalizeExecuteOutput_spec longTextResultFields [JsVal.obj longTextItemFields] rfl⟩

end ThinMCP
